import Mathlib

/-!
Verification of `complaint_borough.py`, a CLI tool that counts NYC 311
complaints by (complaint type, borough) within an inclusive date window.

The embedding models:
* `parse_date` — `datetime.strptime(s, '%m/%d/%Y %I:%M:%S %p')` wrapped so
  that parse failures on a string yield `none` (the Python code catches
  `ValueError`/`AttributeError`).  The structural grammar follows CPython's
  `_strptime` regular expressions (1–2 digit numeric fields with the ranges
  the character classes allow, exactly 4 digits for `%Y`, `\s+` for a
  whitespace run, case-insensitive `AM|PM`), followed by the semantic
  validation `datetime.__new__` performs (day against the month length,
  second ≤ 59, year ≥ 1).
* rows as association lists of column name to `Option String`: `none`
  models Python `None`, which `csv.DictReader` supplies for the cells of a
  row shorter than the header (`restval=None`).  `row.get(key, '')` is
  `rowGet`, returning `some ""` when the column is absent entirely.
* `filter_complaints` — the aggregation loop.  A cell that is Python `None`
  makes `strptime`/`str.strip` raise an exception that `parse_date` does
  not catch (`TypeError` / `AttributeError` outside `parse_date`), which
  the loop's blanket `except Exception` handler turns into `sys.exit(1)`;
  this fatal path is the `Except.error` case.
* `output_results` — sorting by the (complaint type, borough) key exactly
  as `sorted(..., key=lambda x: (x[0][0], x[0][1]))` does (Python string
  comparison is code-point-lexicographic, `charListLt` below), then the
  header line followed by one `f'{ct}, {b}, {n}'` line per key, built by
  appending to a list as the source's loop does.
* `main` — date-argument parsing (`%m/%d/%Y`), end-of-day normalization,
  the start ≤ end check, and the wiring of the above, returning the exit
  code, the lines written to the output destination (stdout or the output
  file), and the messages written to stderr.
-/

/-- A calendar timestamp as `datetime` stores it (microseconds are always 0
here since the parsed formats have none). -/
structure DateTime where
  year : Nat
  month : Nat
  day : Nat
  hour : Nat
  minute : Nat
  second : Nat
deriving DecidableEq, Repr

/-- `datetime` comparison: lexicographic on
(year, month, day, hour, minute, second).  `a.ltb b` is `a < b`. -/
def DateTime.ltb (a b : DateTime) : Bool :=
  if a.year ≠ b.year then decide (a.year < b.year)
  else if a.month ≠ b.month then decide (a.month < b.month)
  else if a.day ≠ b.day then decide (a.day < b.day)
  else if a.hour ≠ b.hour then decide (a.hour < b.hour)
  else if a.minute ≠ b.minute then decide (a.minute < b.minute)
  else decide (a.second < b.second)

/-- Numeric value of a digit character. -/
def digitVal (c : Char) : Nat := c.toNat - 48

/-- A 1–2 digit numeric field of `strptime` (`%m`, `%d`, `%I`, `%M`, `%S`).
The two-digit alternative is preferred when its value passes the field's
character-class test `valid`; otherwise a single digit is taken when it
passes.  Because every such field is followed by a non-digit literal in the
format, this is equivalent to the backtracking regular-expression match. -/
def takeNum2 (valid : Nat → Bool) : List Char → Option (Nat × List Char)
  | [] => none
  | [c] => if c.isDigit && valid (digitVal c) then some (digitVal c, []) else none
  | c1 :: c2 :: rest =>
    if c1.isDigit then
      if c2.isDigit && valid (10 * digitVal c1 + digitVal c2) then
        some (10 * digitVal c1 + digitVal c2, rest)
      else if valid (digitVal c1) then
        some (digitVal c1, c2 :: rest)
      else none
    else none

/-- `%Y`: exactly four digits. -/
def take4 : List Char → Option (Nat × List Char)
  | c1 :: c2 :: c3 :: c4 :: rest =>
    if c1.isDigit && c2.isDigit && c3.isDigit && c4.isDigit then
      some (1000 * digitVal c1 + 100 * digitVal c2 + 10 * digitVal c3 + digitVal c4, rest)
    else none
  | _ => none

/-- A literal character of the format. -/
def expectChar (c : Char) : List Char → Option (List Char)
  | [] => none
  | c' :: rest => if c' = c then some rest else none

/-- Whitespace in the format matches one or more whitespace characters. -/
def skipWs1 : List Char → Option (List Char)
  | [] => none
  | c :: rest => if c.isWhitespace then some (rest.dropWhile Char.isWhitespace) else none

/-- `%p`: `AM` or `PM`, case-insensitively.  Returns `true` for PM. -/
def takeAmPm : List Char → Option (Bool × List Char)
  | a :: m :: rest =>
    if (a = 'A' ∨ a = 'a') ∧ (m = 'M' ∨ m = 'm') then some (false, rest)
    else if (a = 'P' ∨ a = 'p') ∧ (m = 'M' ∨ m = 'm') then some (true, rest)
    else none
  | _ => none

/-- Gregorian leap-year rule, as `datetime` uses. -/
def isLeapYear (y : Nat) : Bool := y % 4 = 0 && (y % 100 ≠ 0 || y % 400 = 0)

/-- Length of a month, as `datetime` validates the day against. -/
def daysInMonth (y m : Nat) : Nat :=
  if m = 2 then (if isLeapYear y then 29 else 28)
  else if m = 4 || m = 6 || m = 9 || m = 11 then 30
  else 31

/-- 12-hour to 24-hour conversion performed by `strptime` for `%I` + `%p`. -/
def hour24 (h : Nat) (pm : Bool) : Nat :=
  if pm then (if h = 12 then 12 else h + 12) else (if h = 12 then 0 else h)

/-- The validation `datetime`'s constructor performs on the values the
regular expression produced: year ≥ 1, day within the month, second ≤ 59
(the `%S` class also admits 60–61, which the constructor rejects). -/
def mkDatetime (y m d h mi se : Nat) (pm : Bool) : Option DateTime :=
  if 1 ≤ y && d ≤ daysInMonth y m && se ≤ 59 then
    some ⟨y, m, d, hour24 h pm, mi, se⟩
  else none

/-- Month field test: `1[0-2]|0[1-9]|[1-9]`. -/
def monthValid (v : Nat) : Bool := 1 ≤ v && v ≤ 12
/-- Day field test: `3[01]|[12]\d|0[1-9]|[1-9]`. -/
def dayValid (v : Nat) : Bool := 1 ≤ v && v ≤ 31
/-- Hour field test for `%I`: `1[0-2]|0[1-9]|[1-9]`. -/
def hourValid (v : Nat) : Bool := 1 ≤ v && v ≤ 12
/-- Minute field test: `[0-5]\d|\d`. -/
def minuteValid (v : Nat) : Bool := v ≤ 59
/-- Second field test: `6[0-1]|[0-5]\d|\d`. -/
def secondValid (v : Nat) : Bool := v ≤ 61

/-- `parse_date`: parse `MM/DD/YYYY HH:MM:SS AM/PM` (CPython
`datetime.strptime` with format `'%m/%d/%Y %I:%M:%S %p'`), returning
`none` when parsing fails — the source catches `ValueError` and
`AttributeError` and returns Python `None`. -/
def parse_date (s : String) : Option DateTime := do
  let (m, cs) ← takeNum2 monthValid s.data
  let cs ← expectChar '/' cs
  let (d, cs) ← takeNum2 dayValid cs
  let cs ← expectChar '/' cs
  let (y, cs) ← take4 cs
  let cs ← skipWs1 cs
  let (h, cs) ← takeNum2 hourValid cs
  let cs ← expectChar ':' cs
  let (mi, cs) ← takeNum2 minuteValid cs
  let cs ← expectChar ':' cs
  let (se, cs) ← takeNum2 secondValid cs
  let cs ← skipWs1 cs
  let (pm, cs) ← takeAmPm cs
  if cs = [] then mkDatetime y m d h mi se pm else none

/-- The CLI date arguments: `datetime.strptime(s, '%m/%d/%Y')`, yielding
midnight of the given day, or `none` on a `ValueError`. -/
def parse_cli_date (s : String) : Option DateTime := do
  let (m, cs) ← takeNum2 monthValid s.data
  let cs ← expectChar '/' cs
  let (d, cs) ← takeNum2 dayValid cs
  let cs ← expectChar '/' cs
  let (y, cs) ← take4 cs
  if cs = [] then
    if 1 ≤ y && d ≤ daysInMonth y m then some ⟨y, m, d, 0, 0, 0⟩ else none
  else none

/-- `end_date.replace(hour=23, minute=59, second=59)`. -/
def endOfDay (d : DateTime) : DateTime :=
  { d with hour := 23, minute := 59, second := 59 }

/-- A CSV row as `csv.DictReader` yields it: column name to cell value,
where the value `none` models Python `None` (the filler for the cells of a
row with fewer fields than the header). -/
abbrev Row : Type := List (String × Option String)

/-- A (complaint type, borough) aggregation key. -/
abbrev Key : Type := String × String

/-- The count table: association list from key to count, in insertion
order, as the `defaultdict(int)` holds it. -/
abbrev CountTable : Type := List (Key × Nat)

instance {ε α : Type} [DecidableEq ε] [DecidableEq α] : DecidableEq (Except ε α) := fun a b =>
  match a, b with
  | .error x, .error y =>
    if h : x = y then isTrue (by rw [h]) else isFalse (by intro hc; cases hc; exact h rfl)
  | .ok x, .ok y =>
    if h : x = y then isTrue (by rw [h]) else isFalse (by intro hc; cases hc; exact h rfl)
  | .error _, .ok _ => isFalse (by intro h; cases h)
  | .ok _, .error _ => isFalse (by intro h; cases h)

/-- First binding of a column name in a row. -/
def lookupRow (row : Row) (key : String) : Option (Option String) :=
  match row with
  | [] => none
  | (k, v) :: rest => if k = key then some v else lookupRow rest key

/-- `row.get(key, '')`: the stored cell (possibly Python `None`) when the
column exists, the default `''` otherwise. -/
def rowGet (row : Row) (key : String) : Option String :=
  match lookupRow row key with
  | some v => v
  | none => some ""

/-- Python `str.strip()`: remove leading and trailing whitespace. -/
def pyStrip (s : String) : String :=
  String.mk (((s.data.dropWhile Char.isWhitespace).reverse.dropWhile Char.isWhitespace).reverse)

/-- Lookup of a key's count in the table. -/
def lookupCount (counts : CountTable) (k : Key) : Option Nat :=
  match counts with
  | [] => none
  | (k', c) :: rest => if k' = k then some c else lookupCount rest k

/-- The count recorded for a key, 0 when absent (what the table denotes,
`defaultdict(int)`-style). -/
def countOf (counts : CountTable) (k : Key) : Nat :=
  (lookupCount counts k).getD 0

/-- `complaint_counts[key] += 1`: increment in place, appending a fresh
entry with count 1 when the key is absent. -/
def incr (counts : CountTable) (k : Key) : CountTable :=
  match counts with
  | [] => [(k, 1)]
  | (k', c) :: rest => if k' = k then (k', c + 1) :: rest else (k', c) :: incr rest k

/-- One iteration of the aggregation loop, without the accumulator:
`Except.error ()` when the row raises an exception that escapes to the
loop's blanket handler (a Python-`None` cell reaching `strptime`, which
raises `TypeError`, or `.strip()`, which raises `AttributeError`);
`Except.ok none` when the row is skipped; `Except.ok (some key)` when the
row is counted under `key`. -/
def rowKey (start_date end_date : DateTime) (row : Row) : Except Unit (Option Key) :=
  match rowGet row "Created Date" with
  | none => .error ()
  | some created_date_str =>
    match parse_date created_date_str with
    | none => .ok none
    | some created_date =>
      if created_date.ltb start_date || end_date.ltb created_date then .ok none
      else
        match rowGet row "Complaint Type", rowGet row "Borough" with
        | some ct_raw, some b_raw =>
          let complaint_type := pyStrip ct_raw
          let borough := pyStrip b_raw
          if complaint_type = "" || borough = "" then .ok none
          else .ok (some (complaint_type, borough))
        | _, _ => .error ()

/-- The `for row in reader` loop of `filter_complaints`. -/
def filterLoop (start_date end_date : DateTime) (counts : CountTable) :
    List Row → Except Unit CountTable
  | [] => .ok counts
  | row :: rest =>
    match rowKey start_date end_date row with
    | .error e => .error e
    | .ok none => filterLoop start_date end_date counts rest
    | .ok (some k) => filterLoop start_date end_date (incr counts k) rest

/-- `filter_complaints` on an already-opened input: streams the rows,
returning the count table, or `Except.error ()` when an exception escaped
a row and the handler called `sys.exit(1)`. -/
def filter_complaints (rows : List Row) (start_date end_date : DateTime) :
    Except Unit CountTable :=
  filterLoop start_date end_date [] rows

/-- Python string `<`: lexicographic comparison of code points. -/
def charListLt : List Char → List Char → Bool
  | _, [] => false
  | [], _ :: _ => true
  | a :: as, b :: bs =>
    if a < b then true
    else if b < a then false
    else charListLt as bs

/-- Python `<` on strings. -/
def strLt (a b : String) : Bool := charListLt a.data b.data

/-- Python `<` on the `(x[0][0], x[0][1])` sort keys: tuple comparison. -/
def keyLtB (k1 k2 : Key) : Bool :=
  strLt k1.1 k2.1 || (k1.1 = k2.1 && strLt k1.2 k2.2)

/-- The (non-strict) order `sorted` arranges the items in: item `x` may
precede item `y` when `y`'s sort key is not below `x`'s. -/
def itemLe (x y : Key × Nat) : Prop := keyLtB y.1 x.1 = false

instance : DecidableRel itemLe := fun x y => by unfold itemLe; infer_instance

/-- Strict ascending order on items' sort keys. -/
def itemKeyLt (x y : Key × Nat) : Prop := keyLtB x.1 y.1 = true

/-- `sorted(complaint_counts.items(), key=lambda x: (x[0][0], x[0][1]))`
(a stable sort; the key order is total, see `itemLe_total`). -/
def sortedItems (counts : CountTable) : CountTable :=
  List.insertionSort itemLe counts

/-- `f'{complaint_type}, {borough}, {count}'`. -/
def renderLine (item : Key × Nat) : String :=
  item.1.1 ++ ", " ++ item.1.2 ++ ", " ++ toString item.2

/-- `output_results`: header line, then one rendered line per sorted item,
built by appending as the source's loop does.  The returned list is the
content written to the output file or stdout. -/
def output_results (counts : CountTable) : List String :=
  (sortedItems counts).foldl
    (fun output_lines item => output_lines ++ [renderLine item])
    ["complaint type, borough, count"]

/-- Observable result of a run of `main`: process exit code, lines written
to the output destination (the `-o` file or stdout), and stderr messages. -/
structure MainResult where
  exitCode : Nat
  outLines : List String
  errLines : List String
deriving DecidableEq, Repr

/-- The source's `main`, after `argparse` (the name `main` is reserved in
Lean, hence `main_run`): takes the start/end date argument strings and the
input file's rows — `none` when the input path cannot be opened or read
(`FileNotFoundError` etc.).  Mirrors the source's sequencing: dates are
parsed and validated before the input file is touched. -/
def main_run (startStr endStr : String) (inputFile : Option (List Row)) : MainResult :=
  match parse_cli_date startStr, parse_cli_date endStr with
  | some start_date, some end_date0 =>
    let end_date := endOfDay end_date0
    if end_date.ltb start_date then
      ⟨1, [], ["Error: Start date must be before or equal to end date"]⟩
    else
      match inputFile with
      | none => ⟨1, [], ["Error: File not found."]⟩
      | some rows =>
        match filter_complaints rows start_date end_date with
        | .error _ => ⟨1, [], ["Error reading file"]⟩
        | .ok counts => ⟨0, output_results counts, []⟩
  | _, _ => ⟨1, [], ["Error: Dates must be in MM/DD/YYYY format"]⟩

/-- The predicate of claim C1 on a row: its `Created Date` cell is a
string that parses, the timestamp lies in `[s, e]` inclusive, and the
`Complaint Type` and `Borough` cells are strings that, trimmed, equal the
given pair's components and are non-empty. -/
def rowMatches (s e : DateTime) (ct b : String) (row : Row) : Bool :=
  match rowGet row "Created Date" with
  | none => false
  | some ds =>
    match parse_date ds with
    | none => false
    | some d =>
      !(d.ltb s) && !(e.ltb d) &&
        (match rowGet row "Complaint Type", rowGet row "Borough" with
         | some c, some bo =>
           pyStrip c = ct && pyStrip bo = b && ct ≠ "" && b ≠ ""
         | _, _ => false)

/-- A row all of whose cells are genuine strings (no Python `None`), as
every row of a CSV file whose records are at least as wide as the header
is. -/
def stringCells (row : Row) : Prop := ∀ p ∈ row, p.2 ≠ none



/-! ### Order properties of the Python comparison -/

theorem charListLt_nil_right : ∀ l : List Char, charListLt l [] = false
  | [] => rfl
  | _ :: _ => rfl

theorem charListLt_cons (a b : Char) (as bs : List Char) :
    charListLt (a :: as) (b :: bs) =
      (if a < b then true else if b < a then false else charListLt as bs) := rfl

theorem charListLt_irrefl : ∀ l : List Char, charListLt l l = false
  | [] => rfl
  | a :: as => by
    rw [charListLt_cons, if_neg (lt_irrefl a), if_neg (lt_irrefl a)]
    exact charListLt_irrefl as

theorem charListLt_asymm :
    ∀ a b : List Char, charListLt a b = true → charListLt b a = false
  | a, [], h => by rw [charListLt_nil_right] at h; cases h
  | [], _ :: _, _ => charListLt_nil_right _
  | a :: as, b :: bs, h => by
    rw [charListLt_cons] at h
    rw [charListLt_cons]
    by_cases hab : a < b
    · rw [if_neg (asymm hab), if_pos hab]
    · rw [if_neg hab] at h
      by_cases hba : b < a
      · rw [if_pos hba] at h; cases h
      · rw [if_neg hba] at h
        rw [if_neg hba, if_neg hab]
        exact charListLt_asymm as bs h

theorem charListLt_trans :
    ∀ a b c : List Char, charListLt a b = true → charListLt b c = true →
      charListLt a c = true
  | _, b, [], _, h2 => by rw [charListLt_nil_right] at h2; cases h2
  | [], b, x :: xs, _, _ => rfl
  | a :: as, [], c :: cs, h1, _ => by rw [charListLt_nil_right] at h1; cases h1
  | a :: as, b :: bs, c :: cs, h1, h2 => by
    rw [charListLt_cons] at h1 h2
    rw [charListLt_cons]
    by_cases hab : a < b <;> by_cases hbc : b < c
    · rw [if_pos (lt_trans hab hbc)]
    · rw [if_neg hbc] at h2
      by_cases hcb : c < b
      · rw [if_pos hcb] at h2; cases h2
      · have : b = c := le_antisymm (not_lt.mp hcb) (not_lt.mp hbc)
        subst this
        rw [if_pos hab]
    · rw [if_neg hab] at h1
      by_cases hba : b < a
      · rw [if_pos hba] at h1; cases h1
      · have : a = b := le_antisymm (not_lt.mp hba) (not_lt.mp hab)
        subst this
        rw [if_pos hbc]
    · rw [if_neg hab] at h1
      rw [if_neg hbc] at h2
      by_cases hba : b < a
      · rw [if_pos hba] at h1; cases h1
      · by_cases hcb : c < b
        · rw [if_pos hcb] at h2; cases h2
        · rw [if_neg hba] at h1
          rw [if_neg hcb] at h2
          have eab : a = b := le_antisymm (not_lt.mp hba) (not_lt.mp hab)
          have ebc : b = c := le_antisymm (not_lt.mp hcb) (not_lt.mp hbc)
          subst eab; subst ebc
          rw [if_neg (lt_irrefl a), if_neg (lt_irrefl a)]
          exact charListLt_trans as bs cs h1 h2

theorem charListLt_trichotomy :
    ∀ a b : List Char, charListLt a b = true ∨ a = b ∨ charListLt b a = true
  | [], [] => Or.inr (Or.inl rfl)
  | [], _ :: _ => Or.inl rfl
  | _ :: _, [] => Or.inr (Or.inr rfl)
  | a :: as, b :: bs => by
    rcases lt_trichotomy a b with hab | hab | hab
    · exact Or.inl (by rw [charListLt_cons, if_pos hab])
    · subst hab
      rcases charListLt_trichotomy as bs with h | h | h
      · exact Or.inl
          (by rw [charListLt_cons, if_neg (lt_irrefl a), if_neg (lt_irrefl a)]; exact h)
      · exact Or.inr (Or.inl (by rw [h]))
      · exact Or.inr (Or.inr
          (by rw [charListLt_cons, if_neg (lt_irrefl a), if_neg (lt_irrefl a)]; exact h))
    · exact Or.inr (Or.inr (by rw [charListLt_cons, if_pos hab]))

theorem string_data_inj {s t : String} (h : s.data = t.data) : s = t := by
  cases s; cases t; exact congrArg String.mk h

theorem strLt_asymm {a b : String} (h : strLt a b = true) : strLt b a = false :=
  charListLt_asymm _ _ h

theorem strLt_trans {a b c : String} (h1 : strLt a b = true) (h2 : strLt b c = true) :
    strLt a c = true :=
  charListLt_trans _ _ _ h1 h2

theorem strLt_trichotomy (a b : String) :
    strLt a b = true ∨ a = b ∨ strLt b a = true := by
  rcases charListLt_trichotomy a.data b.data with h | h | h
  · exact Or.inl h
  · exact Or.inr (Or.inl (string_data_inj h))
  · exact Or.inr (Or.inr h)

theorem strLt_irrefl (a : String) : strLt a a = false :=
  charListLt_irrefl _

theorem keyLtB_asymm {k1 k2 : Key} (h : keyLtB k1 k2 = true) : keyLtB k2 k1 = false := by
  rcases k1 with ⟨x1, y1⟩; rcases k2 with ⟨x2, y2⟩
  simp only [keyLtB, Bool.or_eq_true, Bool.and_eq_true, decide_eq_true_eq] at h ⊢
  rcases h with h | ⟨hx, hy⟩
  · simp only [Bool.or_eq_false_iff, Bool.and_eq_false_iff]
    refine ⟨strLt_asymm h, Or.inl ?_⟩
    simp only [decide_eq_false_iff_not]
    rintro rfl
    rw [strLt_irrefl] at h; cases h
  · subst hx
    simp only [Bool.or_eq_false_iff, Bool.and_eq_false_iff]
    exact ⟨strLt_irrefl x1, Or.inr (strLt_asymm hy)⟩

theorem keyLtB_trans {k1 k2 k3 : Key} (h1 : keyLtB k1 k2 = true)
    (h2 : keyLtB k2 k3 = true) : keyLtB k1 k3 = true := by
  rcases k1 with ⟨x1, y1⟩; rcases k2 with ⟨x2, y2⟩; rcases k3 with ⟨x3, y3⟩
  simp only [keyLtB, Bool.or_eq_true, Bool.and_eq_true, decide_eq_true_eq] at h1 h2 ⊢
  rcases h1 with h1 | ⟨hx1, hy1⟩ <;> rcases h2 with h2 | ⟨hx2, hy2⟩
  · exact Or.inl (strLt_trans h1 h2)
  · subst hx2; exact Or.inl h1
  · subst hx1; exact Or.inl h2
  · subst hx1; subst hx2; exact Or.inr ⟨rfl, strLt_trans hy1 hy2⟩

theorem keyLtB_trichotomy (k1 k2 : Key) :
    keyLtB k1 k2 = true ∨ k1 = k2 ∨ keyLtB k2 k1 = true := by
  rcases k1 with ⟨x1, y1⟩; rcases k2 with ⟨x2, y2⟩
  rcases strLt_trichotomy x1 x2 with hx | hx | hx
  · exact Or.inl (by simp [keyLtB, hx])
  · subst hx
    rcases strLt_trichotomy y1 y2 with hy | hy | hy
    · exact Or.inl (by simp [keyLtB, hy])
    · exact Or.inr (Or.inl (by rw [hy]))
    · exact Or.inr (Or.inr (by simp [keyLtB, hy]))
  · exact Or.inr (Or.inr (by simp [keyLtB, hx]))

instance : IsTotal (Key × Nat) itemLe := by
  constructor
  intro x y
  unfold itemLe
  rcases h : keyLtB y.1 x.1 with _ | _
  · exact Or.inl rfl
  · exact Or.inr (keyLtB_asymm h)

instance : IsTrans (Key × Nat) itemLe := by
  constructor
  intro x y z hxy hyz
  unfold itemLe at hxy hyz ⊢
  rcases h : keyLtB z.1 x.1 with _ | _
  · rfl
  · exfalso
    rcases keyLtB_trichotomy z.1 y.1 with hzy | hzy | hzy
    · rw [hzy] at hyz; cases hyz
    · rw [hzy] at h; rw [h] at hxy; cases hxy
    · have : keyLtB y.1 x.1 = true := keyLtB_trans hzy h
      rw [this] at hxy; cases hxy

theorem itemKeyLt_of_itemLe_of_ne {x y : Key × Nat} (hle : itemLe x y)
    (hne : x.1 ≠ y.1) : itemKeyLt x y := by
  unfold itemLe at hle
  unfold itemKeyLt
  rcases keyLtB_trichotomy x.1 y.1 with h | h | h
  · exact h
  · exact absurd h hne
  · rw [h] at hle; cases hle

/-! ### Count table lemmas -/

theorem incr_cons_self (k : Key) (v : Nat) (rest : CountTable) :
    incr ((k, v) :: rest) k = (k, v + 1) :: rest := by
  simp [incr]

theorem incr_cons_ne {k' k : Key} (h : k' ≠ k) (v : Nat) (rest : CountTable) :
    incr ((k', v) :: rest) k = (k', v) :: incr rest k := by
  simp [incr, h]

theorem lookupCount_cons_self (k : Key) (v : Nat) (rest : CountTable) :
    lookupCount ((k, v) :: rest) k = some v := by
  simp [lookupCount]

theorem lookupCount_cons_ne {k' k : Key} (h : k' ≠ k) (v : Nat) (rest : CountTable) :
    lookupCount ((k', v) :: rest) k = lookupCount rest k := by
  simp [lookupCount, h]

theorem countOf_eq (c : CountTable) (k : Key) : countOf c k = (lookupCount c k).getD 0 := rfl

theorem lookupCount_incr_self : ∀ (c : CountTable) (k : Key),
    lookupCount (incr c k) k = some (countOf c k + 1)
  | [], k => by simp [incr, lookupCount, countOf]
  | (k', v) :: rest, k => by
    by_cases h : k' = k
    · subst h
      rw [incr_cons_self, lookupCount_cons_self, countOf_eq, lookupCount_cons_self]
      rfl
    · rw [incr_cons_ne h, lookupCount_cons_ne h, countOf_eq, lookupCount_cons_ne h,
        ← countOf_eq]
      exact lookupCount_incr_self rest k

theorem lookupCount_incr_ne : ∀ (c : CountTable) (k k2 : Key), k2 ≠ k →
    lookupCount (incr c k) k2 = lookupCount c k2
  | [], k, k2, hne => by
    simp only [incr, lookupCount]
    rw [if_neg (Ne.symm hne)]
  | (k', v) :: rest, k, k2, hne => by
    by_cases h : k' = k
    · subst h
      rw [incr_cons_self]
      by_cases h2 : k' = k2
      · subst h2
        exact absurd rfl hne
      · rw [lookupCount_cons_ne h2, lookupCount_cons_ne h2]
    · rw [incr_cons_ne h]
      by_cases h2 : k' = k2
      · subst h2
        rw [lookupCount_cons_self, lookupCount_cons_self]
      · rw [lookupCount_cons_ne h2, lookupCount_cons_ne h2]
        exact lookupCount_incr_ne rest k k2 hne

theorem countOf_incr_self (c : CountTable) (k : Key) :
    countOf (incr c k) k = countOf c k + 1 := by
  rw [countOf_eq, lookupCount_incr_self]
  rfl

theorem countOf_incr_ne (c : CountTable) (k k2 : Key) (hne : k2 ≠ k) :
    countOf (incr c k) k2 = countOf c k2 := by
  rw [countOf_eq, lookupCount_incr_ne c k k2 hne, countOf_eq]

theorem mem_map_fst_incr : ∀ (c : CountTable) (k k0 : Key),
    k0 ∈ (incr c k).map Prod.fst ↔ (k0 ∈ c.map Prod.fst ∨ k0 = k)
  | [], k, k0 => by simp [incr]
  | (k', v) :: rest, k, k0 => by
    by_cases h : k' = k
    · subst h
      rw [incr_cons_self]
      simp only [List.map_cons, List.mem_cons]
      tauto
    · rw [incr_cons_ne h]
      simp only [List.map_cons, List.mem_cons]
      rw [mem_map_fst_incr rest k k0]
      tauto

theorem nodup_fst_incr (c : CountTable) (k : Key)
    (h : (c.map Prod.fst).Nodup) : ((incr c k).map Prod.fst).Nodup := by
  induction c with
  | nil => simp [incr]
  | cons p rest ih =>
    rcases p with ⟨k', v⟩
    simp only [List.map_cons, List.nodup_cons] at h
    by_cases hk : k' = k
    · subst hk
      rw [incr_cons_self]
      simp only [List.map_cons, List.nodup_cons]
      exact h
    · rw [incr_cons_ne hk]
      simp only [List.map_cons, List.nodup_cons]
      refine ⟨?_, ih h.2⟩
      rw [mem_map_fst_incr]
      rintro (hm | rfl)
      · exact h.1 hm
      · exact hk rfl

theorem ge1_incr (c : CountTable) (k : Key)
    (h : ∀ k' v, lookupCount c k' = some v → 1 ≤ v) :
    ∀ k' v, lookupCount (incr c k) k' = some v → 1 ≤ v := by
  intro k' v hl
  by_cases hk : k' = k
  · subst hk
    rw [lookupCount_incr_self] at hl
    cases hl
    exact Nat.le_add_left 1 _
  · rw [lookupCount_incr_ne c k k' hk] at hl
    exact h k' v hl

theorem lookupCount_eq_none_iff : ∀ (c : CountTable) (k : Key),
    lookupCount c k = none ↔ k ∉ c.map Prod.fst
  | [], k => by simp [lookupCount]
  | (k', v) :: rest, k => by
    simp only [List.map_cons, List.mem_cons]
    by_cases h : k' = k
    · subst h
      rw [lookupCount_cons_self]
      simp
    · rw [lookupCount_cons_ne h, lookupCount_eq_none_iff rest k]
      constructor
      · rintro hnm (rfl | hm)
        · exact h rfl
        · exact hnm hm
      · intro hnm hm
        exact hnm (Or.inr hm)

theorem mem_iff_lookupCount : ∀ (c : CountTable) (k : Key) (v : Nat),
    (c.map Prod.fst).Nodup → ((k, v) ∈ c ↔ lookupCount c k = some v)
  | [], k, v, _ => by simp [lookupCount]
  | (k', v') :: rest, k, v, hnd => by
    simp only [List.map_cons, List.nodup_cons] at hnd
    simp only [List.mem_cons]
    by_cases h : k' = k
    · subst h
      rw [lookupCount_cons_self]
      constructor
      · rintro (hm | hm)
        · cases hm; rfl
        · exfalso
          exact hnd.1 (List.mem_map.mpr ⟨(k', v), hm, rfl⟩)
      · intro hm
        cases hm
        exact Or.inl rfl
    · rw [lookupCount_cons_ne h, ← mem_iff_lookupCount rest k v hnd.2]
      constructor
      · rintro (hm | hm)
        · cases hm; exact absurd rfl h
        · exact hm
      · exact Or.inr

/-! ### Filter loop lemmas -/

/-- The row is counted under key `k` in the aggregation pass. -/
def isCountedAs (s e : DateTime) (k : Key) (r : Row) : Bool :=
  decide (rowKey s e r = .ok (some k))

theorem filterLoop_cons (s e : DateTime) (acc : CountTable) (row : Row) (rest : List Row) :
    filterLoop s e acc (row :: rest) =
      match rowKey s e row with
      | .error err => .error err
      | .ok none => filterLoop s e acc rest
      | .ok (some k) => filterLoop s e (incr acc k) rest := rfl

theorem filterLoop_ok_countOf (s e : DateTime) (k : Key) :
    ∀ (rows : List Row) (acc counts : CountTable),
      filterLoop s e acc rows = .ok counts →
      countOf counts k = countOf acc k + rows.countP (isCountedAs s e k) := by
  intro rows
  induction rows with
  | nil =>
    intro acc counts h
    cases h
    simp
  | cons row rest ih =>
    intro acc counts h
    rw [filterLoop_cons] at h
    rw [List.countP_cons]
    rcases hk : rowKey s e row with u | ko
    · rw [hk] at h; cases h
    · rw [hk] at h
      rcases ko with _ | k'
      · have hcnt : isCountedAs s e k row = false := by
          simp only [isCountedAs, decide_eq_false_iff_not, hk]
          intro hc; cases hc
        rw [hcnt]
        simpa using ih acc counts h
      · by_cases hkk : k' = k
        · subst hkk
          have hcnt : isCountedAs s e k' row = true := by
            simp [isCountedAs, hk]
          rw [hcnt]
          have := ih (incr acc k') counts h
          rw [this, countOf_incr_self]
          simp
          omega
        · have hcnt : isCountedAs s e k row = false := by
            simp only [isCountedAs, decide_eq_false_iff_not, hk]
            intro hc
            cases hc
            exact hkk rfl
          rw [hcnt]
          have := ih (incr acc k') counts h
          rw [this, countOf_incr_ne acc k' k (fun hh => hkk hh.symm)]
          simp

theorem filterLoop_ok_nodup (s e : DateTime) :
    ∀ (rows : List Row) (acc counts : CountTable),
      (acc.map Prod.fst).Nodup → filterLoop s e acc rows = .ok counts →
      (counts.map Prod.fst).Nodup := by
  intro rows
  induction rows with
  | nil =>
    intro acc counts hnd h
    cases h
    exact hnd
  | cons row rest ih =>
    intro acc counts hnd h
    rw [filterLoop_cons] at h
    rcases hk : rowKey s e row with u | ko
    · rw [hk] at h; cases h
    · rw [hk] at h
      rcases ko with _ | k'
      · exact ih acc counts hnd h
      · exact ih (incr acc k') counts (nodup_fst_incr acc k' hnd) h

theorem filterLoop_ok_ge1 (s e : DateTime) :
    ∀ (rows : List Row) (acc counts : CountTable),
      (∀ k v, lookupCount acc k = some v → 1 ≤ v) →
      filterLoop s e acc rows = .ok counts →
      ∀ k v, lookupCount counts k = some v → 1 ≤ v := by
  intro rows
  induction rows with
  | nil =>
    intro acc counts hinv h
    cases h
    exact hinv
  | cons row rest ih =>
    intro acc counts hinv h
    rw [filterLoop_cons] at h
    rcases hk : rowKey s e row with u | ko
    · rw [hk] at h; cases h
    · rw [hk] at h
      rcases ko with _ | k'
      · exact ih acc counts hinv h
      · exact ih (incr acc k') counts (ge1_incr acc k' hinv) h

theorem filterLoop_error_iff (s e : DateTime) :
    ∀ (rows : List Row) (acc : CountTable),
      filterLoop s e acc rows = .error () ↔ ∃ r ∈ rows, rowKey s e r = .error () := by
  intro rows
  induction rows with
  | nil =>
    intro acc
    constructor
    · intro h; cases h
    · rintro ⟨r, hr, _⟩; cases hr
  | cons row rest ih =>
    intro acc
    rw [filterLoop_cons]
    rcases hk : rowKey s e row with u | ko
    · rcases u
      constructor
      · intro _
        exact ⟨row, List.mem_cons_self row rest, hk⟩
      · intro _; rfl
    · rcases ko with _ | k'
      · rw [ih acc]
        constructor
        · rintro ⟨r, hr, herr⟩
          exact ⟨r, List.mem_cons_of_mem row hr, herr⟩
        · rintro ⟨r, hr, herr⟩
          rcases List.mem_cons.mp hr with rfl | hr
          · rw [hk] at herr; cases herr
          · exact ⟨r, hr, herr⟩
      · rw [ih (incr acc k')]
        constructor
        · rintro ⟨r, hr, herr⟩
          exact ⟨r, List.mem_cons_of_mem row hr, herr⟩
        · rintro ⟨r, hr, herr⟩
          rcases List.mem_cons.mp hr with rfl | hr
          · rw [hk] at herr; cases herr
          · exact ⟨r, hr, herr⟩

theorem filterLoop_skip (s e : DateTime) (r : Row) (hr : rowKey s e r = .ok none) :
    ∀ (pre post : List Row) (acc : CountTable),
      filterLoop s e acc (pre ++ r :: post) = filterLoop s e acc (pre ++ post) := by
  intro pre
  induction pre with
  | nil =>
    intro post acc
    simp only [List.nil_append, filterLoop_cons, hr]
  | cons p pre' ih =>
    intro post acc
    simp only [List.cons_append, filterLoop_cons]
    rcases hk : rowKey s e p with u | ko
    · rfl
    · rcases ko with _ | k'
      · exact ih post acc
      · exact ih post (incr acc k')

theorem filterLoop_all_skip (s e : DateTime) :
    ∀ (rows : List Row) (acc : CountTable),
      (∀ r ∈ rows, rowKey s e r = .ok none) →
      filterLoop s e acc rows = .ok acc := by
  intro rows
  induction rows with
  | nil => intro acc _; rfl
  | cons row rest ih =>
    intro acc hall
    rw [filterLoop_cons, hall row (List.mem_cons_self row rest)]
    exact ih acc fun r hr => hall r (List.mem_cons_of_mem row hr)

/-! ### Sorted output lemmas -/

theorem sortedItems_perm (c : CountTable) : (sortedItems c).Perm c :=
  List.perm_insertionSort itemLe c

theorem sortedItems_sorted (c : CountTable) : List.Sorted itemLe (sortedItems c) :=
  List.sorted_insertionSort itemLe c

theorem sortedItems_pairwise (c : CountTable) (hnd : (c.map Prod.fst).Nodup) :
    List.Pairwise itemKeyLt (sortedItems c) := by
  have hs : List.Pairwise itemLe (sortedItems c) := sortedItems_sorted c
  have hnd2 : ((sortedItems c).map Prod.fst).Nodup :=
    (((sortedItems_perm c).map Prod.fst).nodup_iff).mpr hnd
  have hne : List.Pairwise (fun x y : Key × Nat => x.1 ≠ y.1) (sortedItems c) :=
    List.pairwise_map.mp hnd2
  exact (hs.and hne).imp fun h => itemKeyLt_of_itemLe_of_ne h.1 h.2

/-- The reflexive closure of the strict key order; antisymmetric, which the
strict order on its own (over items) is not required to be. -/
def itemKeyLe (x y : Key × Nat) : Prop := itemKeyLt x y ∨ x = y

theorem itemKeyLe_antisymm : ∀ {x y : Key × Nat}, itemKeyLe x y → itemKeyLe y x → x = y := by
  rintro x y (h1 | rfl) h2
  · rcases h2 with h2 | rfl
    · exfalso
      have := keyLtB_asymm h1
      rw [h2] at this
      cases this
    · rfl
  · rfl

theorem eq_of_perm_of_pairwise {l1 l2 : CountTable} (hp : l1.Perm l2)
    (h1 : List.Pairwise itemKeyLt l1) (h2 : List.Pairwise itemKeyLt l2) : l1 = l2 := by
  haveI : IsAntisymm (Key × Nat) itemKeyLe := ⟨fun _ _ => itemKeyLe_antisymm⟩
  have hs1 : List.Sorted itemKeyLe l1 := h1.imp fun h => Or.inl h
  have hs2 : List.Sorted itemKeyLe l2 := h2.imp fun h => Or.inl h
  exact List.eq_of_perm_of_sorted hp hs1 hs2

theorem lookupCount_eq_of_countOf_eq (c1 c2 : CountTable)
    (hg1 : ∀ k v, lookupCount c1 k = some v → 1 ≤ v)
    (hg2 : ∀ k v, lookupCount c2 k = some v → 1 ≤ v)
    (hcnt : ∀ k, countOf c1 k = countOf c2 k) :
    ∀ k, lookupCount c1 k = lookupCount c2 k := by
  intro k
  have hc := hcnt k
  rw [countOf_eq, countOf_eq] at hc
  rcases hl1 : lookupCount c1 k with _ | v
  · rcases hl2 : lookupCount c2 k with _ | v2
    · rfl
    · exfalso
      rw [hl1, hl2] at hc
      have := hg2 k v2 hl2
      simp at hc
      omega
  · rcases hl2 : lookupCount c2 k with _ | v2
    · exfalso
      rw [hl1, hl2] at hc
      have := hg1 k v hl1
      simp at hc
      omega
    · rw [hl1, hl2] at hc
      simp at hc
      rw [hc]

theorem sortedItems_eq_of_same (c1 c2 : CountTable)
    (h1 : (c1.map Prod.fst).Nodup) (h2 : (c2.map Prod.fst).Nodup)
    (hg1 : ∀ k v, lookupCount c1 k = some v → 1 ≤ v)
    (hg2 : ∀ k v, lookupCount c2 k = some v → 1 ≤ v)
    (hcnt : ∀ k, countOf c1 k = countOf c2 k) :
    sortedItems c1 = sortedItems c2 := by
  have hlook := lookupCount_eq_of_countOf_eq c1 c2 hg1 hg2 hcnt
  have hmem : ∀ x : Key × Nat, x ∈ c1 ↔ x ∈ c2 := by
    rintro ⟨k, v⟩
    rw [mem_iff_lookupCount c1 k v h1, mem_iff_lookupCount c2 k v h2, hlook k]
  have hnd1 : c1.Nodup := List.Nodup.of_map Prod.fst h1
  have hnd2 : c2.Nodup := List.Nodup.of_map Prod.fst h2
  have hperm : c1.Perm c2 := (List.perm_ext_iff_of_nodup hnd1 hnd2).mpr hmem
  have hps : (sortedItems c1).Perm (sortedItems c2) :=
    ((sortedItems_perm c1).trans hperm).trans (sortedItems_perm c2).symm
  exact eq_of_perm_of_pairwise hps (sortedItems_pairwise c1 h1) (sortedItems_pairwise c2 h2)

theorem foldl_append_map {α β : Type} (f : α → β) :
    ∀ (l : List α) (init : List β),
      l.foldl (fun acc x => acc ++ [f x]) init = init ++ l.map f
  | [], init => by simp
  | x :: xs, init => by
    simp only [List.foldl_cons, List.map_cons]
    rw [foldl_append_map f xs (init ++ [f x])]
    simp

theorem output_results_eq (c : CountTable) :
    output_results c =
      "complaint type, borough, count" :: (sortedItems c).map renderLine := by
  unfold output_results
  rw [foldl_append_map]
  simp

/-! ### Row predicate lemmas -/

theorem rowKey_ok_some_iff (s e : DateTime) (row : Row) (ct b : String) :
    rowKey s e row = .ok (some (ct, b)) ↔ rowMatches s e ct b row = true := by
  unfold rowKey rowMatches
  rcases hcd : rowGet row "Created Date" with _ | ds <;> simp only [hcd]
  · simp
  · rcases hpd : parse_date ds with _ | d <;> simp only [hpd]
    · simp
    · rcases hls : DateTime.ltb d s with _ | _
      · rcases hle : DateTime.ltb e d with _ | _
        · simp only [hls, hle, Bool.or_self, Bool.false_eq_true, if_false, Bool.not_false,
            Bool.true_and]
          rcases hct : rowGet row "Complaint Type" with _ | c <;> try simp only [hct]
          · simp
          · rcases hbo : rowGet row "Borough" with _ | bo <;> try simp only [hbo]
            · simp
            · by_cases hc0 : pyStrip c = ""
              · rw [if_pos (by simp [hc0])]
                constructor
                · intro h
                  rw [Except.ok.injEq] at h
                  exact Option.noConfusion h
                · intro h
                  simp only [Bool.and_eq_true, Bool.not_eq_eq_eq_not, Bool.not_true,
                    decide_eq_true_eq, decide_eq_false_iff_not] at h
                  exact absurd (by rw [← h.1.1.1]; exact hc0) h.1.2
              · by_cases hb0 : pyStrip bo = ""
                · rw [if_pos (by simp [hb0])]
                  constructor
                  · intro h
                    rw [Except.ok.injEq] at h
                    exact Option.noConfusion h
                  · intro h
                    simp only [Bool.and_eq_true, Bool.not_eq_eq_eq_not, Bool.not_true,
                      decide_eq_true_eq, decide_eq_false_iff_not] at h
                    exact absurd (by rw [← h.1.1.2]; exact hb0) h.2
                · rw [if_neg (by simp [hc0, hb0])]
                  constructor
                  · intro h
                    rw [Except.ok.injEq, Option.some.injEq, Prod.mk.injEq] at h
                    rcases h with ⟨h1, h2⟩
                    rw [← h1, ← h2]
                    simp [hc0, hb0]
                  · intro h
                    simp only [Bool.and_eq_true, decide_eq_true_eq] at h
                    rw [h.1.1.1, h.1.1.2]
        · simp [hls, hle]
      · simp [hls]

/-! ### Parser shape lemmas -/

/-- What a successfully parsed timestamp looks like: every field within the
ranges of the pattern `month/day/year hour:minute:second AM|PM` as
`strptime` + the `datetime` constructor admit them. -/
def validTimestamp (dt : DateTime) : Prop :=
  1 ≤ dt.year ∧ 1 ≤ dt.month ∧ dt.month ≤ 12 ∧ 1 ≤ dt.day ∧
    dt.day ≤ daysInMonth dt.year dt.month ∧ dt.hour ≤ 23 ∧ dt.minute ≤ 59 ∧ dt.second ≤ 59

theorem takeNum2_valid (f : Nat → Bool) :
    ∀ (cs : List Char) (v : Nat) (rest : List Char),
      takeNum2 f cs = some (v, rest) → f v = true := by
  intro cs
  match cs with
  | [] => intro v rest h; exact Option.noConfusion h
  | [c] =>
    intro v rest h
    simp only [takeNum2] at h
    split_ifs at h with hc
    rw [Option.some.injEq, Prod.mk.injEq] at h
    simp only [Bool.and_eq_true] at hc
    rw [← h.1]
    exact hc.2
  | c1 :: c2 :: r =>
    intro v rest h
    simp only [takeNum2] at h
    split_ifs at h with hd1 hd2 hv1
    · rw [Option.some.injEq, Prod.mk.injEq] at h
      simp only [Bool.and_eq_true] at hd2
      rw [← h.1]
      exact hd2.2
    · rw [Option.some.injEq, Prod.mk.injEq] at h
      rw [← h.1]
      exact hv1

theorem mkDatetime_shape (y m d hr mi se : Nat) (pm : Bool) (dt : DateTime)
    (hm : monthValid m = true) (hd : dayValid d = true) (hh : hourValid hr = true)
    (hmi : minuteValid mi = true) (hmk : mkDatetime y m d hr mi se pm = some dt) :
    validTimestamp dt := by
  unfold mkDatetime at hmk
  split_ifs at hmk with hc
  · rw [Option.some.injEq] at hmk
    subst hmk
    unfold monthValid at hm
    unfold dayValid at hd
    unfold hourValid at hh
    unfold minuteValid at hmi
    simp only [Bool.and_eq_true, decide_eq_true_eq] at hm hd hh hmi hc
    refine ⟨hc.1.1, hm.1, hm.2, hd.1, hc.1.2, ?_, hmi, hc.2⟩
    rcases pm <;> by_cases h12 : hr = 12 <;> simp [hour24, h12] <;> omega

theorem parse_date_valid (s : String) (dt : DateTime) (h : parse_date s = some dt) :
    validTimestamp dt := by
  unfold parse_date at h
  simp only [bind, Option.bind_eq_some] at h
  obtain ⟨⟨m, cs1⟩, hm, h⟩ := h
  obtain ⟨cs2, hsl1, h⟩ := h
  obtain ⟨⟨d, cs3⟩, hd, h⟩ := h
  obtain ⟨cs4, hsl2, h⟩ := h
  obtain ⟨⟨y, cs5⟩, hy, h⟩ := h
  obtain ⟨cs6, hw1, h⟩ := h
  obtain ⟨⟨hr, cs7⟩, hhv, h⟩ := h
  obtain ⟨cs8, hsl3, h⟩ := h
  obtain ⟨⟨mi, cs9⟩, hmiv, h⟩ := h
  obtain ⟨cs10, hsl4, h⟩ := h
  obtain ⟨⟨se, cs11⟩, hsev, h⟩ := h
  obtain ⟨cs12, hw2, h⟩ := h
  obtain ⟨⟨pm, cs13⟩, hpm, h⟩ := h
  split_ifs at h with hnil
  exact mkDatetime_shape y m d hr mi se pm dt (takeNum2_valid _ _ _ _ hm)
    (takeNum2_valid _ _ _ _ hd) (takeNum2_valid _ _ _ _ hhv)
    (takeNum2_valid _ _ _ _ hmiv) h

/-! ### Main-driver lemmas -/

theorem main_run_perm_eq (ss es : String) (rows1 rows2 : List Row)
    (hperm : rows1.Perm rows2) :
    main_run ss es (some rows1) = main_run ss es (some rows2) := by
  unfold main_run
  rcases h1 : parse_cli_date ss with _ | sd
  · simp only [h1]
  · simp only [h1]
    rcases h2 : parse_cli_date es with _ | ed0
    · simp only [h2]
    · simp only [h2]
      by_cases hlt : DateTime.ltb (endOfDay ed0) sd = true
      · rw [if_pos hlt, if_pos hlt]
      · rw [if_neg hlt, if_neg hlt]
        rcases hf1 : filter_complaints rows1 sd (endOfDay ed0) with u | c1
        · rcases u
          obtain ⟨r, hr, herr⟩ :=
            (filterLoop_error_iff sd (endOfDay ed0) rows1 []).mp hf1
          have hf2 : filter_complaints rows2 sd (endOfDay ed0) = .error () :=
            (filterLoop_error_iff sd (endOfDay ed0) rows2 []).mpr
              ⟨r, hperm.mem_iff.mp hr, herr⟩
          simp only [hf1, hf2]
        · rcases hf2 : filter_complaints rows2 sd (endOfDay ed0) with u | c2
          · rcases u
            exfalso
            obtain ⟨r, hr, herr⟩ :=
              (filterLoop_error_iff sd (endOfDay ed0) rows2 []).mp hf2
            have : filter_complaints rows1 sd (endOfDay ed0) = .error () :=
              (filterLoop_error_iff sd (endOfDay ed0) rows1 []).mpr
                ⟨r, hperm.mem_iff.mpr hr, herr⟩
            rw [hf1] at this
            cases this
          · have hnd1 : (c1.map Prod.fst).Nodup :=
              filterLoop_ok_nodup sd (endOfDay ed0) rows1 [] c1 (by simp) hf1
            have hnd2 : (c2.map Prod.fst).Nodup :=
              filterLoop_ok_nodup sd (endOfDay ed0) rows2 [] c2 (by simp) hf2
            have hg1 : ∀ k v, lookupCount c1 k = some v → 1 ≤ v :=
              filterLoop_ok_ge1 sd (endOfDay ed0) rows1 [] c1
                (fun _ _ h0 => Option.noConfusion h0) hf1
            have hg2 : ∀ k v, lookupCount c2 k = some v → 1 ≤ v :=
              filterLoop_ok_ge1 sd (endOfDay ed0) rows2 [] c2
                (fun _ _ h0 => Option.noConfusion h0) hf2
            have hcnt : ∀ k, countOf c1 k = countOf c2 k := by
              intro k
              have e1 := filterLoop_ok_countOf sd (endOfDay ed0) k rows1 [] c1 hf1
              have e2 := filterLoop_ok_countOf sd (endOfDay ed0) k rows2 [] c2 hf2
              rw [e1, e2, hperm.countP_eq]
            have hsi : sortedItems c1 = sortedItems c2 :=
              sortedItems_eq_of_same c1 c2 hnd1 hnd2 hg1 hg2 hcnt
            have hout : output_results c1 = output_results c2 := by
              rw [output_results_eq, output_results_eq, hsi]
            simp only [hf1, hf2, hout]

/-! ### Concrete sample data for the witnesses -/

/-- A well-formed row counted under `("Noise", "BRONX")` (fields carry
surrounding whitespace that trimming removes). -/
def rowNoise : Row :=
  [("Created Date", some "01/15/2024 10:30:00 AM"), ("Complaint Type", some " Noise "),
   ("Borough", some "BRONX")]

/-- A well-formed row counted under `("Water Leak", "QUEENS")`. -/
def rowWater : Row :=
  [("Created Date", some "01/20/2024 02:00:00 PM"), ("Complaint Type", some "Water Leak"),
   ("Borough", some "QUEENS")]

/-- A row whose creation date does not parse: silently skipped. -/
def rowBadDate : Row :=
  [("Created Date", some "not a date"), ("Complaint Type", some "Noise"),
   ("Borough", some "BRONX")]

/-- A row shorter than the header: `csv.DictReader` fills the missing cells
with Python `None`. -/
def rowShort : Row :=
  [("Created Date", none), ("Complaint Type", none), ("Borough", none)]

/-- A row timestamped at the last second of 01/31/2024. -/
def rowLastInstant : Row :=
  [("Created Date", some "01/31/2024 11:59:59 PM"), ("Complaint Type", some "Noise"),
   ("Borough", some "BRONX")]

/-- A row timestamped at the first second of 02/01/2024. -/
def rowNextInstant : Row :=
  [("Created Date", some "02/01/2024 12:00:00 AM"), ("Complaint Type", some "Noise"),
   ("Borough", some "BRONX")]

/-- Midnight of 01/01/2024, the parsed start argument of the samples. -/
def janStart : DateTime := ⟨2024, 1, 1, 0, 0, 0⟩

/-- End-of-day of 01/31/2024, the normalized end argument of the samples. -/
def janEnd : DateTime := endOfDay ⟨2024, 1, 31, 0, 0, 0⟩

/-! ### The claims -/

/-- Claim C1: for every input (rows of the file), validated date window and
pair `(ct, b)`, the count the completed aggregation pass emits for the pair
equals the number of input rows whose parsed `Created Date` lies within
`[start, end]` inclusive and whose trimmed `Complaint Type` and `Borough`
equal the pair's components and are non-empty (`rowMatches`). -/
theorem claim_C1 (rows : List Row) (start_date end_date : DateTime) (counts : CountTable)
    (ct b : String) (hok : filter_complaints rows start_date end_date = .ok counts) :
    countOf counts (ct, b) =
      (rows.filter (rowMatches start_date end_date ct b)).length := by
  have e1 := filterLoop_ok_countOf start_date end_date (ct, b) rows [] counts hok
  have hfun : isCountedAs start_date end_date (ct, b) = rowMatches start_date end_date ct b := by
    funext r
    unfold isCountedAs
    rcases hrm : rowMatches start_date end_date ct b r with _ | _
    · rw [decide_eq_false_iff_not, rowKey_ok_some_iff, hrm]
      simp
    · rw [decide_eq_true_eq, rowKey_ok_some_iff]
      exact hrm
  rw [e1, hfun, ← List.countP_eq_length_filter]
  simp [countOf_eq, lookupCount]

/-- Witness for C1 at a concrete input: three rows, one counted under
`("Noise", "BRONX")` (after trimming), one under another pair, one with an
unparsable date. -/
theorem claim_C1_witness :
    countOf [(("Noise", "BRONX"), 1), (("Water Leak", "QUEENS"), 1)] ("Noise", "BRONX") =
      (([rowNoise, rowWater, rowBadDate] : List Row).filter
        (rowMatches janStart janEnd "Noise" "BRONX")).length :=
  claim_C1 [rowNoise, rowWater, rowBadDate] janStart janEnd
    [(("Noise", "BRONX"), 1), (("Water Leak", "QUEENS"), 1)] "Noise" "BRONX" (by decide)

/-- Claim C2: the data lines of the output are the sorted items rendered in
order, the sort is strictly ascending in the (complaint type, borough) key;
and a run of `main` on any permutation of the input rows produces the
byte-identical result (same exit code, output lines and stderr). -/
theorem claim_C2 :
    (∀ (rows : List Row) (s e : DateTime) (counts : CountTable),
        filter_complaints rows s e = .ok counts →
        output_results counts =
            "complaint type, borough, count" :: (sortedItems counts).map renderLine ∧
          List.Pairwise itemKeyLt (sortedItems counts)) ∧
    (∀ (ss es : String) (rows1 rows2 : List Row), rows1.Perm rows2 →
        main_run ss es (some rows1) = main_run ss es (some rows2)) := by
  constructor
  · intro rows s e counts hok
    exact ⟨output_results_eq counts,
      sortedItems_pairwise counts (filterLoop_ok_nodup s e rows [] counts (by simp) hok)⟩
  · exact main_run_perm_eq

/-- Witness for C2: a concrete two-key table, and a concrete transposition
of two input rows giving identical runs. -/
theorem claim_C2_witness :
    (output_results [(("Noise", "BRONX"), 1), (("Water Leak", "QUEENS"), 1)] =
        "complaint type, borough, count" ::
          (sortedItems [(("Noise", "BRONX"), 1), (("Water Leak", "QUEENS"), 1)]).map renderLine ∧
      List.Pairwise itemKeyLt
        (sortedItems [(("Noise", "BRONX"), 1), (("Water Leak", "QUEENS"), 1)])) ∧
    main_run "01/01/2024" "01/31/2024" (some [rowNoise, rowWater]) =
      main_run "01/01/2024" "01/31/2024" (some [rowWater, rowNoise]) :=
  ⟨claim_C2.1 [rowNoise, rowWater] janStart janEnd
      [(("Noise", "BRONX"), 1), (("Water Leak", "QUEENS"), 1)] (by decide),
   claim_C2.2 "01/01/2024" "01/31/2024" [rowNoise, rowWater] [rowWater, rowNoise]
      (List.Perm.swap rowWater rowNoise [])⟩

/-- Counterexample to claim C3 as stated: a malformed row — shorter than
the header, so the CSV reader supplies Python `None` for its cells — does
NOT merely get skipped: `strptime(None, ...)` raises `TypeError`, which
`parse_date` does not catch, the loop's `except Exception` handler fires
and the whole run exits with status 1.  Concretely, prepending such a row
aborts the run (no later row is processed, `main` exits non-zero), whereas
without it the later row is counted. -/
theorem claim_C3_counterexample :
    filter_complaints [rowShort, rowNoise] janStart janEnd = .error () ∧
    main_run "01/01/2024" "01/31/2024" (some [rowShort, rowNoise]) =
      ⟨1, [], ["Error reading file"]⟩ ∧
    filter_complaints [rowNoise] janStart janEnd = .ok [(("Noise", "BRONX"), 1)] :=
  ⟨by decide, by decide, by decide⟩

/-- Claim C3 amended: a per-row defect that the code classifies as a skip
(unparsable or missing creation-date string, out-of-window date, blank
category field — exactly `rowKey ... = .ok none`) only suppresses that
single row and processing continues; but a row holding a missing (Python
`None`) cell value raises an uncaught exception and aborts the entire run
with a fatal error wherever it occurs. -/
theorem claim_C3_amended :
    (∀ (s e : DateTime) (r : Row), rowKey s e r = .ok none →
        ∀ (pre post : List Row),
          filter_complaints (pre ++ r :: post) s e = filter_complaints (pre ++ post) s e) ∧
    (∀ (s e : DateTime) (r : Row), rowKey s e r = .error () →
        ∀ (pre post : List Row),
          filter_complaints (pre ++ r :: post) s e = .error ()) := by
  constructor
  · intro s e r hr pre post
    exact filterLoop_skip s e r hr pre post []
  · intro s e r hr pre post
    exact (filterLoop_error_iff s e (pre ++ r :: post) []).mpr
      ⟨r, by simp, hr⟩

/-- Witness for the amended C3: a skipped bad-date row leaves the run
unchanged; a short row (Python `None` cells) aborts the run. -/
theorem claim_C3_amended_witness :
    filter_complaints [rowBadDate, rowNoise] janStart janEnd =
      filter_complaints [rowNoise] janStart janEnd ∧
    filter_complaints [rowShort] janStart janEnd = .error () :=
  ⟨claim_C3_amended.1 janStart janEnd rowBadDate (by decide) [] [rowNoise],
   claim_C3_amended.2 janStart janEnd rowShort (by decide) [] []⟩

/-- Claim C4: for every end date parsed from `MM/DD/YYYY`, the window's
upper bound is 23:59:59 of that calendar day, and the bound is inclusive:
with end date `01/31/2024`, a record timestamped `01/31/2024 11:59:59 PM`
is counted and one timestamped `02/01/2024 12:00:00 AM` is not. -/
theorem claim_C4 :
    (∀ (es : String) (d : DateTime), parse_cli_date es = some d →
        endOfDay d = ⟨d.year, d.month, d.day, 23, 59, 59⟩) ∧
    parse_cli_date "01/31/2024" = some ⟨2024, 1, 31, 0, 0, 0⟩ ∧
    parse_date "01/31/2024 11:59:59 PM" = some ⟨2024, 1, 31, 23, 59, 59⟩ ∧
    rowKey janStart (endOfDay ⟨2024, 1, 31, 0, 0, 0⟩) rowLastInstant =
      .ok (some ("Noise", "BRONX")) ∧
    parse_date "02/01/2024 12:00:00 AM" = some ⟨2024, 2, 1, 0, 0, 0⟩ ∧
    rowKey janStart (endOfDay ⟨2024, 1, 31, 0, 0, 0⟩) rowNextInstant = .ok none := by
  refine ⟨?_, by decide, by decide, by decide, by decide, by decide⟩
  intro es d h
  rfl

/-- Witness for C4's universally quantified part at the concrete end date. -/
theorem claim_C4_witness :
    endOfDay ⟨2024, 1, 31, 0, 0, 0⟩ = ⟨2024, 1, 31, 23, 59, 59⟩ :=
  claim_C4.1 "01/31/2024" ⟨2024, 1, 31, 0, 0, 0⟩ (by decide)

/-- Claim C5: on every input string the date parser either returns a
timestamp whose fields match the pattern's ranges, or the explicit
no-value result (it is a total function of the string — never an escalated
error; in particular the empty string, and the empty-string default a
missing column produces, parse to no value), and the caller consumes the
no-value result by skipping exactly that row. -/
theorem claim_C5 :
    (∀ (s : String) (dt : DateTime), parse_date s = some dt → validTimestamp dt) ∧
    parse_date "" = none ∧
    rowGet [] "Created Date" = some "" ∧
    (∀ (s e : DateTime) (acc : CountTable) (row : Row) (rest : List Row) (ds : String),
        rowGet row "Created Date" = some ds → parse_date ds = none →
        filterLoop s e acc (row :: rest) = filterLoop s e acc rest) := by
  refine ⟨parse_date_valid, by decide, by decide, ?_⟩
  intro s e acc row rest ds hds hpd
  have hk : rowKey s e row = .ok none := by
    unfold rowKey
    simp only [hds, hpd]
  rw [filterLoop_cons, hk]

/-- Witness for C5 at concrete inputs: a successfully parsed timestamp has
the pattern's shape, and a row with an unparsable date string is skipped. -/
theorem claim_C5_witness :
    validTimestamp ⟨2024, 1, 31, 23, 59, 59⟩ ∧
    filterLoop janStart janEnd [] [rowBadDate] = filterLoop janStart janEnd [] [] :=
  ⟨claim_C5.1 "01/31/2024 11:59:59 PM" ⟨2024, 1, 31, 23, 59, 59⟩ (by decide),
   claim_C5.2.2.2 janStart janEnd [] rowBadDate [] "not a date" (by decide) (by decide)⟩

/-- Claim C6: when both dates parse and start is later than the normalized
end, the run's result does not depend on the input file at all (the check
precedes any read), the exit status is non-zero, and no output line is
emitted. -/
theorem claim_C6 (ss es : String) (sd ed0 : DateTime)
    (hs : parse_cli_date ss = some sd) (he : parse_cli_date es = some ed0)
    (hlt : DateTime.ltb (endOfDay ed0) sd = true) :
    (∀ f1 f2 : Option (List Row), main_run ss es f1 = main_run ss es f2) ∧
    (main_run ss es none).exitCode ≠ 0 ∧
    (∀ f : Option (List Row), (main_run ss es f).outLines = []) := by
  have hbase : ∀ f : Option (List Row),
      main_run ss es f =
        ⟨1, [], ["Error: Start date must be before or equal to end date"]⟩ := by
    intro f
    unfold main_run
    simp only [hs, he]
    rw [if_pos hlt]
  refine ⟨fun f1 f2 => (hbase f1).trans (hbase f2).symm, ?_, fun f => by rw [hbase f]⟩
  rw [hbase none]
  decide

/-- Witness for C6 with start 02/01/2024 after end 01/01/2024. -/
theorem claim_C6_witness :
    main_run "02/01/2024" "01/01/2024" none =
      main_run "02/01/2024" "01/01/2024" (some [rowNoise]) ∧
    (main_run "02/01/2024" "01/01/2024" none).exitCode ≠ 0 ∧
    (main_run "02/01/2024" "01/01/2024" (some [rowNoise])).outLines = [] := by
  have h := claim_C6 "02/01/2024" "01/01/2024" ⟨2024, 2, 1, 0, 0, 0⟩ ⟨2024, 1, 1, 0, 0, 0⟩
    (by decide) (by decide) (by decide)
  exact ⟨h.1 none (some [rowNoise]), h.2.1, h.2.2 (some [rowNoise])⟩

/-- Claim C7: the first output line is exactly the fixed header, and each
subsequent line renders one distinct key as complaint type, borough and
count joined by comma-space, fields emitted verbatim — as the second
conjunct shows at a field containing the delimiter, which is not escaped. -/
theorem claim_C7 :
    (∀ counts : CountTable,
        output_results counts =
          "complaint type, borough, count" ::
            (sortedItems counts).map
              (fun item => item.1.1 ++ ", " ++ item.1.2 ++ ", " ++ toString item.2)) ∧
    output_results [(("Noise, Loud", "BRONX"), 2)] =
      ["complaint type, borough, count", "Noise, Loud, BRONX, 2"] := by
  constructor
  · intro counts
    exact output_results_eq counts
  · decide

/-- Claim C8: for every run whose input cannot be opened or read, the
program exits non-zero, writes something to stderr and nothing to the
output destination. -/
theorem claim_C8 (ss es : String) :
    (main_run ss es none).exitCode ≠ 0 ∧
    (main_run ss es none).outLines = [] ∧
    (main_run ss es none).errLines ≠ [] := by
  unfold main_run
  rcases h1 : parse_cli_date ss with _ | sd
  · simp only [h1]
    exact ⟨by decide, by trivial, by decide⟩
  · simp only [h1]
    rcases h2 : parse_cli_date es with _ | ed0
    · simp only [h2]
      exact ⟨by decide, by trivial, by decide⟩
    · simp only [h2]
      by_cases hlt : DateTime.ltb (endOfDay ed0) sd = true
      · rw [if_pos hlt]
        exact ⟨by decide, by trivial, by decide⟩
      · rw [if_neg hlt]
        exact ⟨by decide, by trivial, by decide⟩

/-- Claim C9: in any completed aggregation pass — and, since the table
after any prefix of the rows is the pass over that prefix, at any point
during one — every key present in the table has count at least 1; entries
are only created by `incr` at their first increment, with count 1. -/
theorem claim_C9 (rows : List Row) (s e : DateTime) (counts : CountTable) (k : Key) (c : Nat)
    (hok : filter_complaints rows s e = .ok counts)
    (hl : lookupCount counts k = some c) : 1 ≤ c :=
  filterLoop_ok_ge1 s e rows [] counts (fun _ _ h0 => Option.noConfusion h0) hok k c hl

/-- Witness for C9 at a concrete one-row run. -/
theorem claim_C9_witness :
    filter_complaints [rowNoise] janStart janEnd = .ok [(("Noise", "BRONX"), 1)] ∧
    lookupCount [(("Noise", "BRONX"), 1)] ("Noise", "BRONX") = some 1 ∧ 1 ≤ 1 :=
  ⟨by decide, by decide,
   claim_C9 [rowNoise] janStart janEnd [(("Noise", "BRONX"), 1)] ("Noise", "BRONX") 1
     (by decide) (by decide)⟩

/-- Claim C10: when the dates validate, the input opens, and no row
survives the filter (each row is skipped), the run succeeds with exit
status 0 and the output is exactly the single header line. -/
theorem claim_C10 (ss es : String) (sd ed0 : DateTime) (rows : List Row)
    (hs : parse_cli_date ss = some sd) (he : parse_cli_date es = some ed0)
    (hle : DateTime.ltb (endOfDay ed0) sd = false)
    (hall : ∀ r ∈ rows, rowKey sd (endOfDay ed0) r = .ok none) :
    main_run ss es (some rows) = ⟨0, ["complaint type, borough, count"], []⟩ := by
  unfold main_run
  simp only [hs, he]
  rw [if_neg (by intro hc; rw [hle] at hc; exact Bool.noConfusion hc)]
  have hfc : filter_complaints rows sd (endOfDay ed0) = .ok [] :=
    filterLoop_all_skip sd (endOfDay ed0) rows [] hall
  simp only [hfc]
  rfl

/-- Witness for C10: a run whose single row has an unparsable date. -/
theorem claim_C10_witness :
    main_run "01/01/2024" "01/31/2024" (some [rowBadDate]) =
      ⟨0, ["complaint type, borough, count"], []⟩ :=
  claim_C10 "01/01/2024" "01/31/2024" ⟨2024, 1, 1, 0, 0, 0⟩ ⟨2024, 1, 31, 0, 0, 0⟩
    [rowBadDate] (by decide) (by decide) (by decide) (by decide)
